import Mathlib

/-!
Verification of the bitmap-transformation and byte-packing core of the
BDF-font-to-C-array converter (src/main.py), against its natural-language
specification.  A glyph raster (the `bindata` field of bdfparser's `Bitmap`)
is a list of rows, each row a list of bits; Python stores each row as a
string of `0`/`1` characters, modelled here as `List Bool`.  Fallible
operations (Python statements that can raise `IndexError`/`ValueError`)
return `Option`.
-/

set_option maxHeartbeats 1000000

namespace BdfToC

/-- A glyph raster: one list of bits per row. -/
abbrev Grid := List (List Bool)

/-- All rows have length `w` (the rectangular-grid invariant of the data
model: every `bindata` row has equal width). -/
abbrev wellformed (g : List (List α)) (w : Nat) : Prop := ∀ r ∈ g, r.length = w

/-- Length of the shortest row: the number of columns Python `zip(*rows)`
keeps (`0` when there are no rows, since `zip()` is empty). -/
def minLen : List (List α) → Nat
  | [] => 0
  | [r] => r.length
  | r :: s :: t => min r.length (minLen (s :: t))

/-- Python `zip(*rows)` as used by `transpose` and `getCArr`: the `i`-th
output row collects the `i`-th entry of every input row, up to the shortest
row's length.  For `i < minLen rows` every `getD` hits a real entry, so the
default `d` is never produced. -/
def pyzip (d : α) (rows : List (List α)) : List (List α) :=
  (List.range (minLen rows)).map (fun i => rows.map (fun r => r.getD i d))

namespace BitmapAdv

/-- `BitmapAdv.transpose`: `bindata = [''.join(map(str, row)) for row in
zip(*self.todata(2))]`; `todata(2)` and the string join are mutually inverse
re-encodings of the bit content, so on the bit level this is
`zip(*bindata)`. -/
def transpose (g : Grid) : Grid := pyzip false g

/-- `BitmapAdv.flipHorizontal`: reverse every row (`row[::-1]`). -/
def flipHorizontal (g : Grid) : Grid := g.map List.reverse

/-- `BitmapAdv.flipVertical`: reverse the list of rows. -/
def flipVertical (g : Grid) : Grid := g.reverse

/-- `BitmapAdv.rotateCW`: transpose, then flipHorizontal. -/
def rotateCW (g : Grid) : Grid := flipHorizontal (transpose g)

/-- `BitmapAdv.rotateCCW`: transpose, then flipVertical. -/
def rotateCCW (g : Grid) : Grid := flipVertical (transpose g)

/-- `Bitmap.width()`: `len(self.bindata[0])`; raises `IndexError` when
`bindata` is empty. -/
def pyWidth : Grid → Option Nat
  | [] => none
  | r :: _ => some r.length

/-- `int(row, 2)`: the row read as a big-endian binary numeral. -/
def binToNat (row : List Bool) : Nat :=
  row.foldl (fun a b => 2 * a + cond b 1 0) 0

/-- One row of `todata(4)`: `format(int(row, 2), '0' + str(ceil(len(row)/4))
+ 'x')` — lowercase hex, left-padded with zeros to `ceil(len/4)` digits;
`int('', 2)` raises `ValueError` on an empty row. -/
def todata4Row (row : List Bool) : Option (List Char) :=
  if row.isEmpty then none
  else
    let ds := Nat.toDigits 16 (binToNat row)
    some (List.replicate ((row.length + 3) / 4 - ds.length) '0' ++ ds)

/-- The byte-splitting loop of `getCArr` with `nibblesAmt = 2`:
`row[i:i+2] for i in range(0, len(row), 2)`. -/
def chunk2 : List Char → List (List Char)
  | [] => []
  | [a] => [[a]]
  | a :: b :: rest => [a, b] :: chunk2 rest

/-- Element-wise application of a fallible function, stopping at the first
failure: the `Option` image of a Python list comprehension whose body can
raise. -/
def mapOption (f : α → Option β) : List α → Option (List β)
  | [] => some []
  | a :: t => (f a).bind (fun b => (mapOption f t).map (fun bs => b :: bs))

/-- Lines 51–65 of `getCArr`: rotate a clone clockwise, take `todata(4)`,
split each hex row into 2-digit groups and reverse the groups within the
row. -/
def mkByteArr (g : Grid) : Option (List (List (List Char))) :=
  (mapOption todata4Row (rotateCW g)).map (fun data =>
    data.map (fun row => (chunk2 row).reverse))

/-- `BitmapAdv.getCArr`: build the 2-D byte-group array, transpose it with
`zip(*byteArr)` when `orderIsRowMajor` is true (source comment: convert from
column-major to row-major order), then flatten in row-major reading order. -/
def getCArr (orderIsRowMajor : Bool) (g : Grid) : Option (List (List Char)) :=
  (mkByteArr g).map (fun byteArr =>
    (if orderIsRowMajor then pyzip [] byteArr else byteArr).flatten)

/-- First statement group of `doPadding`: the top edge.  A positive amount
prepends that many all-zero rows of the current width (so it raises when the
grid has no rows); a negative amount drops rows from the top. -/
def padTop (top : Int) (g : Grid) : Option Grid :=
  if 0 < top then
    (pyWidth g).map (fun w => List.replicate top.toNat (List.replicate w false) ++ g)
  else if top < 0 then some (g.drop (-top).toNat)
  else some g

/-- Second statement group of `doPadding`: the bottom edge
(`bindata[:bottom]` for a negative amount is `take (length - |bottom|)`). -/
def padBottom (bottom : Int) (g : Grid) : Option Grid :=
  if 0 < bottom then
    (pyWidth g).map (fun w => g ++ List.replicate bottom.toNat (List.replicate w false))
  else if bottom < 0 then some (g.take (g.length - (-bottom).toNat))
  else some g

/-- Third statement group of `doPadding`: the left edge, applied to every
row. -/
def padLeft (left : Int) (g : Grid) : Option Grid :=
  if 0 < left then some (g.map (fun row => List.replicate left.toNat false ++ row))
  else if left < 0 then some (g.map (fun row => row.drop (-left).toNat))
  else some g

/-- Fourth statement group of `doPadding`: the right edge
(`row[:right]` for a negative amount is `take (length - |right|)`). -/
def padRight (right : Int) (g : Grid) : Option Grid :=
  if 0 < right then some (g.map (fun row => row ++ List.replicate right.toNat false))
  else if right < 0 then some (g.map (fun row => row.take (row.length - (-right).toNat)))
  else some g

/-- `BitmapAdv.doPadding`: the four edge steps in source order; a step whose
`width()` call raises makes the whole call raise (`none`). -/
def doPadding (top bottom left right : Int) (g : Grid) : Option Grid :=
  (((padTop top g).bind (padBottom bottom)).bind (padLeft left)).bind (padRight right)

/-- One edge of the bitmap. -/
inductive Edge | top | bottom | left | right
deriving DecidableEq

/-- `doPadding` applied to a single edge, zero on the other three. -/
def padE : Edge → Int → Grid → Option Grid
  | .top, k, g => doPadding k 0 0 0 g
  | .bottom, k, g => doPadding 0 k 0 0 g
  | .left, k, g => doPadding 0 0 k 0 g
  | .right, k, g => doPadding 0 0 0 k g

end BitmapAdv

namespace GlyphProcessor

/-- The mutable configuration of `GlyphProcessor.__init__` that the
transform pipeline reads (the two output-naming strings are omitted: they
only feed the emitted C text, which is outside every claim). -/
structure Config where
  padTop : Int
  padBottom : Int
  padLeft : Int
  padRight : Int
  dataOrderIsRowMajor : Bool
  mirrorHoriz : Bool
  mirrorVert : Bool
  rotationCount : Int
deriving DecidableEq

/-- `GlyphProcessor.__init__`: zero padding, row-major order, no mirroring,
zero net rotation. -/
def initConfig : Config :=
  { padTop := 0, padBottom := 0, padLeft := 0, padRight := 0,
    dataOrderIsRowMajor := true, mirrorHoriz := false, mirrorVert := false,
    rotationCount := 0 }

/-- One configuration-mutator call on a `GlyphProcessor` (its `set...`,
`do...Mirror` and `rotateC...` methods). -/
inductive Mutator
  | setPaddingTop (p : Int)
  | setPaddingBottom (p : Int)
  | setPaddingLeft (p : Int)
  | setPaddingRight (p : Int)
  | setDataOrderRowMajor
  | setDataOrderColumnMajor
  | doHorizontalMirror
  | doVerticalMirror
  | rotateCW
  | rotateCCW

/-- Effect of one mutator method on the processor state, per source: the
padding setters and order setters overwrite a field, the mirror methods set
a flag, the rotate methods adjust `rotationCount` by plus or minus one. -/
def applyMutator (c : Config) : Mutator → Config
  | .setPaddingTop p => { c with padTop := p }
  | .setPaddingBottom p => { c with padBottom := p }
  | .setPaddingLeft p => { c with padLeft := p }
  | .setPaddingRight p => { c with padRight := p }
  | .setDataOrderRowMajor => { c with dataOrderIsRowMajor := true }
  | .setDataOrderColumnMajor => { c with dataOrderIsRowMajor := false }
  | .doHorizontalMirror => { c with mirrorHoriz := true }
  | .doVerticalMirror => { c with mirrorVert := true }
  | .rotateCW => { c with rotationCount := c.rotationCount + 1 }
  | .rotateCCW => { c with rotationCount := c.rotationCount - 1 }

/-- A whole sequence of mutator calls, first call first. -/
def applyMutators (ms : List Mutator) (c : Config) : Config :=
  ms.foldl applyMutator c

/-- The `for _ in range(0, rotation, 1)` loop of `glyphToBitmap`: apply
`rotateCW` that many times. -/
def rotLoop : Nat → Grid → Grid
  | 0, g => g
  | n + 1, g => rotLoop n (BitmapAdv.rotateCW g)

/-- `GlyphProcessor.glyphToBitmap` on the glyph's raster: pad, mirror
horizontally then vertically when the flags are set, then
`rotationCount % 4` clockwise rotations, all on a private clone.  Python's
`%` on a negative count returns a value in `0..3`, as does `Int.emod`. -/
def glyphToBitmap (c : Config) (g : Grid) : Option Grid :=
  (BitmapAdv.doPadding c.padTop c.padBottom c.padLeft c.padRight g).map (fun g1 =>
    let g2 := if c.mirrorHoriz then BitmapAdv.flipHorizontal g1 else g1
    let g3 := if c.mirrorVert then BitmapAdv.flipVertical g2 else g2
    rotLoop (c.rotationCount % 4).toNat g3)

/-- Modelled from the spec: the transform contract as the spec words it —
"pad, then horizontal mirror if enabled, then vertical mirror if enabled,
then netRotation mod 4 clockwise rotations" on a private clone of the
raster. -/
def transformSpec (c : Config) (g : Grid) : Option Grid :=
  (BitmapAdv.doPadding c.padTop c.padBottom c.padLeft c.padRight g).map (fun g1 =>
    BitmapAdv.rotateCW^[(c.rotationCount % 4).toNat]
      (cond c.mirrorVert BitmapAdv.flipVertical id
        (cond c.mirrorHoriz BitmapAdv.flipHorizontal id g1)))

/-- Digits of the f-string field `{charcode:04X}`: uppercase hexadecimal,
zero-padded on the left to at least four digits. -/
def format04X (n : Nat) : List Char :=
  let ds := (Nat.toDigits 16 n).map Char.toUpper
  List.replicate (4 - ds.length) '0' ++ ds

/-- `GlyphProcessor.getEntryComment` as its character sequence: a literal
space stands in for the character when `charcode < ord(' ')`, otherwise
`chr(charcode)`; the code point is rendered by `{charcode:04X}`. -/
def getEntryComment (charcode : Nat) : List Char :=
  let charSymbol := if 32 ≤ charcode then Char.ofNat charcode else ' '
  ['\'', ' ', charSymbol, ' ', '\'', ' ', '(', '0', 'x'] ++
    format04X charcode ++ [')']

/-- Modelled from the spec: an element byte width outside `[1, 4]` is a
configuration error.  The source has no element-byte-width configuration at
all — `nibblesAmt = 2` (a 1-byte element) is hard-coded in `getCArr` — so
the configuration-time validation is modelled from the spec text. -/
inductive ConfigError | invalidElementByteWidth
deriving DecidableEq

/-- Modelled from the spec: accept an element byte width in `[1, 4]`,
reject anything else at configuration time. -/
def checkElementByteWidth (w : Nat) : Except ConfigError Nat :=
  if 1 ≤ w ∧ w ≤ 4 then Except.ok w
  else Except.error ConfigError.invalidElementByteWidth

end GlyphProcessor

/-- The sixteen lowercase hexadecimal digit characters. -/
def hexChars : List Char := "0123456789abcdef".toList

/-- Numeric value of a hex digit string (digit value = its position in
`hexChars`). -/
def hexVal (s : List Char) : Nat :=
  s.foldl (fun a c => 16 * a + hexChars.indexOf c) 0

/-- Spec wording for the comment's code point: one uppercase hexadecimal
digit. -/
def specHexDigit (n : Nat) : Char := "0123456789ABCDEF".toList.getD n '0'

/-- Spec wording: the code point rendered as four-digit uppercase
hexadecimal. -/
def specHex4 (n : Nat) : List Char :=
  [specHexDigit (n / 4096 % 16), specHexDigit (n / 256 % 16),
   specHexDigit (n / 16 % 16), specHexDigit (n % 16)]

/-! Basic lemmas about `minLen` and `pyzip`. -/

theorem minLen_eq_of_wellformed {g : List (List α)} {w : Nat}
    (hw : wellformed g w) (hg : g ≠ []) : minLen g = w := by
  induction g with
  | nil => simp at hg
  | cons r t ih =>
    cases t with
    | nil => simpa [minLen] using hw r (by simp)
    | cons s u =>
      have h1 : r.length = w := hw r (by simp)
      have h2 : minLen (s :: u) = w :=
        ih (fun x hx => hw x (List.mem_cons_of_mem r hx)) (by simp)
      simp [minLen, h1, h2]

theorem length_pyzip (d : α) (rows : List (List α)) :
    (pyzip d rows).length = minLen rows := by
  simp [pyzip]

theorem getElem_pyzip (d : α) (rows : List (List α)) (i : Nat)
    (h : i < (pyzip d rows).length) :
    (pyzip d rows)[i] = rows.map (fun r => r.getD i d) := by
  simp [pyzip]

theorem range_map_getD (l : List α) (d : α) :
    (List.range l.length).map (fun i => l.getD i d) = l := by
  apply List.ext_getElem
  · simp
  · intro i h1 h2
    simp [List.getD_eq_getElem?_getD, List.getElem?_eq_getElem h2]

theorem wellformed_pyzip (d : α) (rows : List (List α)) :
    wellformed (pyzip d rows) rows.length := by
  intro r hr
  simp [pyzip] at hr
  obtain ⟨i, hi, rfl⟩ := hr
  simp

theorem pyzip_pyzip {g : List (List α)} {w : Nat} (d : α)
    (hw : wellformed g w) (hpos : g = [] ∨ 0 < w) :
    pyzip d (pyzip d g) = g := by
  by_cases hg : g = []
  · subst hg; rfl
  have hpos' : 0 < w := by
    rcases hpos with rfl | h
    · exact absurd rfl hg
    · exact h
  have hmin : minLen g = w := minLen_eq_of_wellformed hw hg
  have hlen : 0 < g.length := List.length_pos.mpr hg
  have hT : wellformed (pyzip d g) g.length := wellformed_pyzip d g
  have hTlen : (pyzip d g).length = w := by rw [length_pyzip, hmin]
  have hTne : pyzip d g ≠ [] := by
    intro h
    rw [h] at hTlen
    simp at hTlen
    omega
  have hminT : minLen (pyzip d g) = g.length := minLen_eq_of_wellformed hT hTne
  apply List.ext_getElem
  · rw [length_pyzip, hminT]
  · intro j h1 h2
    rw [getElem_pyzip]
    calc (pyzip d g).map (fun r => r.getD j d)
        = (List.range w).map (fun i => (g.map (fun r => r.getD i d)).getD j d) := by
          simp [pyzip, hmin, List.map_map]
      _ = (List.range w).map (fun i => (g[j]).getD i d) := by
          apply List.map_congr_left
          intro i _
          simp [List.getD_eq_getElem?_getD, List.getElem?_map,
            List.getElem?_eq_getElem h2]
      _ = g[j] := by
          have hlw : (g[j]).length = w := hw _ (List.getElem_mem h2)
          rw [← hlw]
          exact range_map_getD _ d

theorem pyzip_map_reverse {g : List (List α)} {w : Nat} (d : α)
    (hw : wellformed g w) :
    pyzip d (g.map List.reverse) = (pyzip d g).reverse := by
  by_cases hg : g = []
  · subst hg; rfl
  have hmin : minLen g = w := minLen_eq_of_wellformed hw hg
  have hwrev : wellformed (g.map List.reverse) w := by
    intro r hr
    simp at hr
    simpa using hw r.reverse hr
  have hgrev : g.map List.reverse ≠ [] := by simp [hg]
  have hmin2 : minLen (g.map List.reverse) = w := minLen_eq_of_wellformed hwrev hgrev
  apply List.ext_getElem
  · simp [length_pyzip, hmin, hmin2]
  · intro i h1 h2
    have hi : i < w := by rwa [length_pyzip, hmin2] at h1
    have hTlen : (pyzip d g).length = w := by rw [length_pyzip, hmin]
    rw [List.getElem_reverse, getElem_pyzip, getElem_pyzip, List.map_map]
    apply List.map_congr_left
    intro r hr
    have hrlen : r.length = w := hw r hr
    have hb1 : i < r.reverse.length := by simp [hrlen, hi]
    have hb2 : (pyzip d g).length - 1 - i < r.length := by
      rw [hTlen, hrlen]
      omega
    simp only [Function.comp]
    rw [List.getD_eq_getElem?_getD, List.getElem?_eq_getElem hb1,
      List.getD_eq_getElem?_getD, List.getElem?_eq_getElem hb2]
    simp [List.getElem_reverse, hrlen, hTlen]

namespace BitmapAdv

theorem wellformed_flipHorizontal {g : Grid} {w : Nat} (hw : wellformed g w) :
    wellformed (flipHorizontal g) w := by
  intro r hr
  simp [flipHorizontal] at hr
  simpa using hw r.reverse hr

theorem wellformed_flipVertical {g : Grid} {w : Nat} (hw : wellformed g w) :
    wellformed (flipVertical g) w := by
  intro r hr
  exact hw r (by simpa [flipVertical] using hr)

theorem rotateCW_rotateCW {g : Grid} {w : Nat} (hw : wellformed g w)
    (hpos : g = [] ∨ 0 < w) :
    rotateCW (rotateCW g) = flipHorizontal (flipVertical g) := by
  show flipHorizontal (transpose (flipHorizontal (transpose g)))
      = flipHorizontal (flipVertical g)
  have h1 : transpose (flipHorizontal (transpose g))
      = (transpose (transpose g)).reverse := by
    exact pyzip_map_reverse false (wellformed_pyzip false g)
  rw [h1]
  rw [show transpose (transpose g) = g from pyzip_pyzip false hw hpos]
  rfl

end BitmapAdv

/-! Lemmas about single-edge padding and trimming. -/

namespace BitmapAdv

theorem padE_top (k : Int) (g : Grid) : padE .top k g = padTop k g := by
  simp only [padE, doPadding, padBottom, padLeft, padRight]
  cases padTop k g <;> simp

theorem padE_bottom (k : Int) (g : Grid) : padE .bottom k g = padBottom k g := by
  simp only [padE, doPadding, padTop, padLeft, padRight]
  simp only [show ¬ ((0 : Int) < 0) by omega, if_false, Option.some_bind]
  cases padBottom k g <;> simp

theorem padE_left (k : Int) (g : Grid) : padE .left k g = padLeft k g := by
  simp only [padE, doPadding, padTop, padBottom, padRight]
  simp only [show ¬ ((0 : Int) < 0) by omega, if_false, Option.some_bind]
  cases padLeft k g <;> simp

theorem padE_right (k : Int) (g : Grid) : padE .right k g = padRight k g := by
  simp only [padE, doPadding, padTop, padBottom, padLeft]
  simp only [show ¬ ((0 : Int) < 0) by omega, if_false, Option.some_bind]

theorem drop_append_len {l₁ l₂ : List α} {n : Nat} (h : l₁.length = n) :
    (l₁ ++ l₂).drop n = l₂ := by
  subst h
  exact List.drop_left l₁ l₂

theorem take_append_len {l₁ l₂ : List α} {n : Nat} (h : l₁.length = n) :
    (l₁ ++ l₂).take n = l₁ := by
  subst h
  exact List.take_left l₁ l₂

theorem padTop_zero (g : Grid) : padTop 0 g = some g := by simp [padTop]

theorem padBottom_zero (g : Grid) : padBottom 0 g = some g := by simp [padBottom]

theorem padLeft_zero (g : Grid) : padLeft 0 g = some (g.map id) := by simp [padLeft]

theorem padRight_zero (g : Grid) : padRight 0 g = some g := by simp [padRight]

theorem padTop_pos {k : Nat} (hk : 0 < k) (r : List Bool) (t : Grid) :
    padTop (k : Int) (r :: t)
      = some (List.replicate k (List.replicate r.length false) ++ r :: t) := by
  have hk1 : (0 : Int) < (k : Int) := by exact_mod_cast hk
  have e2 : ((k : Int)).toNat = k := by omega
  simp [padTop, pyWidth, hk1, e2]

theorem padTop_pos_nil {k : Nat} (hk : 0 < k) : padTop (k : Int) [] = none := by
  have hk1 : (0 : Int) < (k : Int) := by exact_mod_cast hk
  simp [padTop, pyWidth, hk1]

theorem padTop_neg {k : Nat} (hk : 0 < k) (g : Grid) :
    padTop (-(k : Int)) g = some (g.drop k) := by
  have hk2 : ¬ ((0 : Int) < -(k : Int)) := by omega
  have hk3 : -(k : Int) < 0 := by omega
  have e1 : (-(-(k : Int))).toNat = k := by omega
  simp [padTop, hk2, hk3, e1]

theorem padBottom_pos {k : Nat} (hk : 0 < k) (r : List Bool) (t : Grid) :
    padBottom (k : Int) (r :: t)
      = some (r :: t ++ List.replicate k (List.replicate r.length false)) := by
  have hk1 : (0 : Int) < (k : Int) := by exact_mod_cast hk
  have e2 : ((k : Int)).toNat = k := by omega
  simp [padBottom, pyWidth, hk1, e2]

theorem padBottom_pos_nil {k : Nat} (hk : 0 < k) : padBottom (k : Int) [] = none := by
  have hk1 : (0 : Int) < (k : Int) := by exact_mod_cast hk
  simp [padBottom, pyWidth, hk1]

theorem padBottom_neg {k : Nat} (hk : 0 < k) (g : Grid) :
    padBottom (-(k : Int)) g = some (g.take (g.length - k)) := by
  have hk2 : ¬ ((0 : Int) < -(k : Int)) := by omega
  have hk3 : -(k : Int) < 0 := by omega
  have e1 : (-(-(k : Int))).toNat = k := by omega
  simp [padBottom, hk2, hk3, e1]

theorem padLeft_pos {k : Nat} (hk : 0 < k) (g : Grid) :
    padLeft (k : Int) g = some (g.map (fun row => List.replicate k false ++ row)) := by
  have hk1 : (0 : Int) < (k : Int) := by exact_mod_cast hk
  have e2 : ((k : Int)).toNat = k := by omega
  simp [padLeft, hk1, e2]

theorem padLeft_neg {k : Nat} (hk : 0 < k) (g : Grid) :
    padLeft (-(k : Int)) g = some (g.map (fun row => row.drop k)) := by
  have hk2 : ¬ ((0 : Int) < -(k : Int)) := by omega
  have hk3 : -(k : Int) < 0 := by omega
  have e1 : (-(-(k : Int))).toNat = k := by omega
  simp [padLeft, hk2, hk3, e1]

theorem padRight_pos {k : Nat} (hk : 0 < k) (g : Grid) :
    padRight (k : Int) g = some (g.map (fun row => row ++ List.replicate k false)) := by
  have hk1 : (0 : Int) < (k : Int) := by exact_mod_cast hk
  have e2 : ((k : Int)).toNat = k := by omega
  simp [padRight, hk1, e2]

theorem padRight_neg {k : Nat} (hk : 0 < k) (g : Grid) :
    padRight (-(k : Int)) g = some (g.map (fun row => row.take (row.length - k))) := by
  have hk2 : ¬ ((0 : Int) < -(k : Int)) := by omega
  have hk3 : -(k : Int) < 0 := by omega
  have e1 : (-(-(k : Int))).toNat = k := by omega
  simp [padRight, hk2, hk3, e1]

theorem pad_trim_top (g : Grid) (k : Nat) (h : g ≠ [] ∨ k = 0) :
    (padE .top (k : Int) g).bind (padE .top (-(k : Int))) = some g := by
  rcases Nat.eq_zero_or_pos k with rfl | hk
  · simp [padE_top, padTop_zero]
  · have hg : g ≠ [] := by
      rcases h with h | h
      · exact h
      · omega
    obtain ⟨r, t, rfl⟩ : ∃ r t, g = r :: t := by
      cases g with
      | nil => exact absurd rfl hg
      | cons r t => exact ⟨r, t, rfl⟩
    rw [padE_top, padTop_pos hk, Option.some_bind, padE_top, padTop_neg hk,
      drop_append_len (by simp)]

theorem pad_trim_bottom (g : Grid) (k : Nat) (h : g ≠ [] ∨ k = 0) :
    (padE .bottom (k : Int) g).bind (padE .bottom (-(k : Int))) = some g := by
  rcases Nat.eq_zero_or_pos k with rfl | hk
  · simp [padE_bottom, padBottom_zero]
  · have hg : g ≠ [] := by
      rcases h with h | h
      · exact h
      · omega
    obtain ⟨r, t, rfl⟩ : ∃ r t, g = r :: t := by
      cases g with
      | nil => exact absurd rfl hg
      | cons r t => exact ⟨r, t, rfl⟩
    rw [padE_bottom, padBottom_pos hk, Option.some_bind, padE_bottom, padBottom_neg hk]
    congr 1
    have hl : (r :: t ++ List.replicate k (List.replicate r.length false)).length - k
        = (r :: t).length := by
      simp
      omega
    rw [hl]
    exact take_append_len rfl

theorem pad_trim_left (g : Grid) (k : Nat) :
    (padE .left (k : Int) g).bind (padE .left (-(k : Int))) = some g := by
  rcases Nat.eq_zero_or_pos k with rfl | hk
  · simp [padE_left, padLeft_zero]
  · rw [padE_left, padLeft_pos hk, Option.some_bind, padE_left, padLeft_neg hk,
      List.map_map]
    congr 1
    refine (List.map_congr_left ?_).trans (List.map_id g)
    intro r _
    simp only [Function.comp]
    exact drop_append_len (by simp)

theorem pad_trim_right (g : Grid) (k : Nat) :
    (padE .right (k : Int) g).bind (padE .right (-(k : Int))) = some g := by
  rcases Nat.eq_zero_or_pos k with rfl | hk
  · simp [padE_right, padRight_zero]
  · rw [padE_right, padRight_pos hk, Option.some_bind, padE_right, padRight_neg hk,
      List.map_map]
    congr 1
    refine (List.map_congr_left ?_).trans (List.map_id g)
    intro r _
    simp only [Function.comp]
    have hl : (r ++ List.replicate k false).length - k = r.length := by simp
    rw [hl]
    exact take_append_len rfl

theorem trim_pad_top (g : Grid) (w k : Nat) (hw : wellformed g w)
    (h : k = 0 ∨ k < g.length) :
    (padE .top (-(k : Int)) g).bind (padE .top (k : Int))
      = some (List.replicate k (List.replicate w false) ++ g.drop k) := by
  rcases Nat.eq_zero_or_pos k with rfl | hk
  · simp [padE_top, padTop_zero]
  · have hlt : k < g.length := by
      rcases h with h | h
      · omega
      · exact h
    rw [padE_top, padTop_neg hk, Option.some_bind, padE_top]
    obtain ⟨r, t, hdrop⟩ : ∃ r t, g.drop k = r :: t := by
      cases hd : g.drop k with
      | nil =>
        have := List.length_drop k g
        rw [hd] at this
        simp at this
        omega
      | cons r t => exact ⟨r, t, rfl⟩
    rw [hdrop, padTop_pos hk]
    have hrg : r ∈ g := List.mem_of_mem_drop (by rw [hdrop]; exact List.mem_cons_self r t)
    rw [hw r hrg, ← hdrop]

theorem trim_pad_bottom (g : Grid) (w k : Nat) (hw : wellformed g w)
    (h : k = 0 ∨ k < g.length) :
    (padE .bottom (-(k : Int)) g).bind (padE .bottom (k : Int))
      = some (g.take (g.length - k) ++ List.replicate k (List.replicate w false)) := by
  rcases Nat.eq_zero_or_pos k with rfl | hk
  · simp [padE_bottom, padBottom_zero]
  · have hlt : k < g.length := by
      rcases h with h | h
      · omega
      · exact h
    rw [padE_bottom, padBottom_neg hk, Option.some_bind, padE_bottom]
    obtain ⟨r, t, htake⟩ : ∃ r t, g.take (g.length - k) = r :: t := by
      cases hd : g.take (g.length - k) with
      | nil =>
        have := List.length_take (g.length - k) g
        rw [hd] at this
        simp at this
        omega
      | cons r t => exact ⟨r, t, rfl⟩
    rw [htake, padBottom_pos hk]
    have hrg : r ∈ g := List.mem_of_mem_take (by rw [htake]; exact List.mem_cons_self r t)
    rw [hw r hrg, ← htake]

theorem trim_pad_left (g : Grid) (k : Nat) :
    (padE .left (-(k : Int)) g).bind (padE .left (k : Int))
      = some (g.map (fun row => List.replicate k false ++ row.drop k)) := by
  rcases Nat.eq_zero_or_pos k with rfl | hk
  · simp [padE_left, padLeft_zero]
  · rw [padE_left, padLeft_neg hk, Option.some_bind, padE_left, padLeft_pos hk,
      List.map_map]
    rfl

theorem trim_pad_right (g : Grid) (k : Nat) :
    (padE .right (-(k : Int)) g).bind (padE .right (k : Int))
      = some (g.map (fun row => row.take (row.length - k) ++ List.replicate k false)) := by
  rcases Nat.eq_zero_or_pos k with rfl | hk
  · simp [padE_right, padRight_zero]
  · rw [padE_right, padRight_neg hk, Option.some_bind, padE_right, padRight_pos hk,
      List.map_map]
    rfl

end BitmapAdv

/-! Lemmas about `minLen`, `pyzip` membership, and the packing pipeline. -/

theorem minLen_le {rows : List (List α)} {r : List α} (hr : r ∈ rows) :
    minLen rows ≤ r.length := by
  induction rows with
  | nil => simp at hr
  | cons a t ih =>
    cases t with
    | nil =>
      simp at hr
      subst hr
      simp [minLen]
    | cons b u =>
      rcases List.mem_cons.mp hr with rfl | hmem
      · simp [minLen]
      · calc minLen (a :: b :: u) ≤ minLen (b :: u) := by simp [minLen]
          _ ≤ r.length := ih hmem

theorem minLen_eq_zero {g : List (List α)} (h : ∀ r ∈ g, r.length = 0) :
    minLen g = 0 := by
  cases g with
  | nil => rfl
  | cons r t => exact minLen_eq_of_wellformed h (by simp)

theorem pyzip_rows_pos {d : α} {rows : List (List α)} {c : List α}
    (hc : c ∈ pyzip d rows) : 0 < rows.length := by
  simp [pyzip] at hc
  obtain ⟨i, hi, rfl⟩ := hc
  cases rows with
  | nil => simp [minLen] at hi
  | cons r t => simp

theorem pyzip_row_length {d : α} {rows : List (List α)} {c : List α}
    (hc : c ∈ pyzip d rows) : c.length = rows.length := by
  simp [pyzip] at hc
  obtain ⟨i, hi, rfl⟩ := hc
  simp

theorem mem_mem_pyzip {d : α} {rows : List (List α)} {c : List α} {x : α}
    (hc : c ∈ pyzip d rows) (hx : x ∈ c) : ∃ r ∈ rows, x ∈ r := by
  simp [pyzip] at hc
  obtain ⟨i, hi, rfl⟩ := hc
  simp at hx
  obtain ⟨r, hr, rfl⟩ := hx
  refine ⟨r, hr, ?_⟩
  have hir : i < r.length := lt_of_lt_of_le hi (minLen_le hr)
  rw [List.getElem?_eq_getElem hir]
  simp [List.getElem_mem]

theorem mapOption_isSome {f : α → Option β} :
    ∀ (l : List α), (∀ a ∈ l, (f a).isSome = true) → ∃ y, BitmapAdv.mapOption f l = some y
  | [], _ => ⟨[], rfl⟩
  | a :: t, h => by
    obtain ⟨b, hb⟩ := Option.isSome_iff_exists.mp (h a (List.mem_cons_self a t))
    obtain ⟨y, hy⟩ := mapOption_isSome t (fun x hx => h x (List.mem_cons_of_mem a hx))
    exact ⟨b :: y, by simp [BitmapAdv.mapOption, hb, hy]⟩

theorem mem_of_mapOption {f : α → Option β} :
    ∀ {l : List α} {ys : List β}, BitmapAdv.mapOption f l = some ys →
      ∀ y ∈ ys, ∃ x ∈ l, f x = some y := by
  intro l
  induction l with
  | nil =>
    intro ys h y hy
    simp [BitmapAdv.mapOption] at h
    subst h
    simp at hy
  | cons x t ih =>
    intro ys h y hy
    simp only [BitmapAdv.mapOption, Option.bind_eq_some, Option.map_eq_some'] at h
    obtain ⟨b, hb, bs, hbs, hys⟩ := h
    subst hys
    rcases List.mem_cons.mp hy with rfl | hmem
    · exact ⟨x, List.mem_cons_self x t, hb⟩
    · obtain ⟨x', hx', hfx'⟩ := ih hbs y hmem
      exact ⟨x', List.mem_cons_of_mem x hx', hfx'⟩

theorem chunk2_mem : ∀ (s : List Char) (e : List Char), e ∈ BitmapAdv.chunk2 s →
    (e.length = 1 ∨ e.length = 2) ∧ ∀ c ∈ e, c ∈ s
  | [], e, he => by simp [BitmapAdv.chunk2] at he
  | [a], e, he => by
    simp [BitmapAdv.chunk2] at he
    subst he
    refine ⟨Or.inl rfl, ?_⟩
    intro c hc
    simpa using hc
  | a :: b :: rest, e, he => by
    simp only [BitmapAdv.chunk2] at he
    rcases List.mem_cons.mp he with rfl | hmem
    · refine ⟨Or.inr rfl, ?_⟩
      intro c hc
      rcases List.mem_cons.mp hc with rfl | hc2
      · simp
      · simp at hc2
        subst hc2
        simp
    · have ih := chunk2_mem rest e hmem
      exact ⟨ih.1, fun c hc =>
        List.mem_cons_of_mem a (List.mem_cons_of_mem b (ih.2 c hc))⟩

theorem digitChar_mem_hexChars {n : Nat} (h : n < 16) :
    Nat.digitChar n ∈ hexChars := by
  interval_cases n <;> decide

theorem toDigitsCore_hex :
    ∀ (fuel n : Nat) (ds : List Char), (∀ c ∈ ds, c ∈ hexChars) →
      ∀ c ∈ Nat.toDigitsCore 16 fuel n ds, c ∈ hexChars := by
  intro fuel
  induction fuel with
  | zero =>
    intro n ds hds c hc
    simp only [Nat.toDigitsCore] at hc
    exact hds c hc
  | succ fuel ih =>
    intro n ds hds c hc
    have hdig : Nat.digitChar (n % 16) ∈ hexChars :=
      digitChar_mem_hexChars (Nat.mod_lt n (by omega))
    simp only [Nat.toDigitsCore] at hc
    by_cases h0 : n / 16 = 0
    · rw [if_pos h0] at hc
      rcases List.mem_cons.mp hc with rfl | hc2
      · exact hdig
      · exact hds c hc2
    · rw [if_neg h0] at hc
      refine ih (n / 16) _ ?_ c hc
      intro c2 hc2
      rcases List.mem_cons.mp hc2 with rfl | hc3
      · exact hdig
      · exact hds c2 hc3

theorem toDigits_hex (n : Nat) : ∀ c ∈ Nat.toDigits 16 n, c ∈ hexChars := by
  intro c hc
  simp only [Nat.toDigits] at hc
  exact toDigitsCore_hex (n + 1) n [] (by simp) c hc

theorem todata4Row_hex {row : List Bool} {s : List Char}
    (h : BitmapAdv.todata4Row row = some s) : ∀ c ∈ s, c ∈ hexChars := by
  simp only [BitmapAdv.todata4Row] at h
  split at h
  · exact absurd h (by simp)
  · simp only [Option.some_inj] at h
    subst h
    intro c hc
    rcases List.mem_append.mp hc with h1 | h2
    · rw [List.eq_of_mem_replicate h1]
      decide
    · exact toDigits_hex _ c h2

theorem hexVal_le {e : List Char} (h1 : e.length = 1 ∨ e.length = 2)
    (h2 : ∀ c ∈ e, c ∈ hexChars) : hexVal e ≤ 255 := by
  have hv : ∀ c ∈ e, hexChars.indexOf c < 16 := by
    intro c hc
    have := List.indexOf_lt_length.mpr (h2 c hc)
    simpa using this
  rcases h1 with h | h
  · obtain ⟨c, rfl⟩ := List.length_eq_one.mp h
    have hc := hv c (by simp)
    simp only [hexVal, List.foldl_cons, List.foldl_nil]
    omega
  · obtain ⟨c, d2, rfl⟩ := List.length_eq_two.mp h
    have hc := hv c (by simp)
    have hd := hv d2 (by simp)
    simp only [hexVal, List.foldl_cons, List.foldl_nil]
    omega

namespace BitmapAdv

theorem rotateCW_eq_nil {g : Grid} (h : minLen g = 0) : rotateCW g = [] := by
  simp [rotateCW, transpose, flipHorizontal, pyzip, h]

theorem rotateCW_rows_ne_nil {g : Grid} {r : List Bool} (hr : r ∈ rotateCW g) :
    r ≠ [] := by
  simp only [rotateCW, flipHorizontal, List.mem_map] at hr
  obtain ⟨s, hs, rfl⟩ := hr
  have h1 : s.length = g.length := pyzip_row_length hs
  have h2 : 0 < g.length := pyzip_rows_pos hs
  intro hnil
  rw [List.reverse_eq_nil_iff] at hnil
  subst hnil
  simp at h1
  omega

theorem todata4Row_isSome {row : List Bool} (h : row ≠ []) :
    (todata4Row row).isSome = true := by
  rw [todata4Row, if_neg (by simpa using h)]
  rfl

theorem getCArr_isSome (o : Bool) (g : Grid) : ∃ l, getCArr o g = some l := by
  have h : ∀ r ∈ rotateCW g, (todata4Row r).isSome = true := fun r hr =>
    todata4Row_isSome (rotateCW_rows_ne_nil hr)
  obtain ⟨y, hy⟩ := mapOption_isSome (rotateCW g) h
  refine ⟨(if o then pyzip [] (y.map (fun row => (chunk2 row).reverse))
      else y.map (fun row => (chunk2 row).reverse)).flatten, ?_⟩
  simp only [getCArr, mkByteArr, hy]
  rfl

theorem padTop_nonpos {t : Int} (ht : t ≤ 0) (g : Grid) :
    ∃ g', padTop t g = some g' := by
  simp only [padTop]
  rw [if_neg (by omega : ¬ (0 : Int) < t)]
  split
  · exact ⟨_, rfl⟩
  · exact ⟨_, rfl⟩

theorem padBottom_nonpos {b : Int} (hb : b ≤ 0) (g : Grid) :
    ∃ g', padBottom b g = some g' := by
  simp only [padBottom]
  rw [if_neg (by omega : ¬ (0 : Int) < b)]
  split
  · exact ⟨_, rfl⟩
  · exact ⟨_, rfl⟩

theorem padLeft_nonpos {l : Int} (hl : l ≤ 0) (g : Grid) :
    ∃ g', padLeft l g = some g' := by
  simp only [padLeft]
  rw [if_neg (by omega : ¬ (0 : Int) < l)]
  split
  · exact ⟨_, rfl⟩
  · exact ⟨_, rfl⟩

theorem padRight_nonpos {r : Int} (hr : r ≤ 0) (g : Grid) :
    ∃ g', padRight r g = some g' := by
  simp only [padRight]
  rw [if_neg (by omega : ¬ (0 : Int) < r)]
  split
  · exact ⟨_, rfl⟩
  · exact ⟨_, rfl⟩

end BitmapAdv

/-! Claim C6: pack emptiness. -/

/-- Claim C6 (confirmed): packing an empty grid — no rows, or every row of
width zero — yields an empty byte sequence in either byte-order mode. -/
theorem claim_C6 (o : Bool) (g : Grid) (h : g = [] ∨ ∀ r ∈ g, r.length = 0) :
    BitmapAdv.getCArr o g = some [] := by
  have hrot : BitmapAdv.rotateCW g = [] := by
    rcases h with rfl | h
    · rfl
    · exact BitmapAdv.rotateCW_eq_nil (minLen_eq_zero h)
  rw [BitmapAdv.getCArr, BitmapAdv.mkByteArr, hrot]
  cases o <;> rfl

/-- Witness for claim C6 at a two-row, zero-width grid. -/
theorem claim_C6_witness : BitmapAdv.getCArr true [([] : List Bool), []] = some [] :=
  claim_C6 true [[], []] (Or.inr (by decide))

/-! Claim C9: configuration-time width validation (spec-modelled) and
totality of packing. -/

/-- Claim C9 (confirmed, spec-modelled): an element byte width outside
[1,4] is rejected by the configuration check (modelled from the spec — the
source hard-codes one-byte elements), widths inside [1,4] are accepted, and
`getCArr` itself is total: it returns a byte list for every grid and both
byte orders, never failing at packing time. -/
theorem claim_C9 :
    (∀ w : Nat, (w = 0 ∨ 4 < w) ↔
        GlyphProcessor.checkElementByteWidth w
          = Except.error GlyphProcessor.ConfigError.invalidElementByteWidth)
    ∧ (∀ w : Nat, 1 ≤ w → w ≤ 4 →
        GlyphProcessor.checkElementByteWidth w = Except.ok w)
    ∧ (∀ (o : Bool) (g : Grid), ∃ l, BitmapAdv.getCArr o g = some l) := by
  refine ⟨?_, ?_, BitmapAdv.getCArr_isSome⟩
  · intro w
    rw [GlyphProcessor.checkElementByteWidth]
    by_cases hc : 1 ≤ w ∧ w ≤ 4
    · rw [if_pos hc]
      exact iff_of_false (by omega) (by simp)
    · rw [if_neg hc]
      exact iff_of_true (by omega) rfl
  · intro w h1 h2
    rw [GlyphProcessor.checkElementByteWidth, if_pos ⟨h1, h2⟩]

/-- Witness for claim C9: width 5 is rejected, width 2 accepted, and a
concrete grid packs successfully. -/
theorem claim_C9_witness :
    GlyphProcessor.checkElementByteWidth 5
        = Except.error GlyphProcessor.ConfigError.invalidElementByteWidth
    ∧ GlyphProcessor.checkElementByteWidth 2 = Except.ok 2
    ∧ ∃ l, BitmapAdv.getCArr false [[true], [false]] = some l :=
  ⟨(claim_C9.1 5).mp (Or.inr (by decide)),
   claim_C9.2.1 2 (by decide) (by decide),
   claim_C9.2.2 false [[true], [false]]⟩

/-! Claim C10: trimming is total and bottoms out at an empty or zero-width
grid. -/

/-- Claim C10 (confirmed): `doPadding` with only non-positive (trim)
amounts never raises; trimming the top or bottom by at least the grid's
height yields the empty grid, and trimming the left or right by at least
the width turns every row into the empty row. -/
theorem claim_C10 :
    (∀ (t b l r : Int) (g : Grid), t ≤ 0 → b ≤ 0 → l ≤ 0 → r ≤ 0 →
        ∃ g', BitmapAdv.doPadding t b l r g = some g')
    ∧ (∀ (g : Grid) (k : Nat), g.length ≤ k →
        BitmapAdv.padE .top (-(k : Int)) g = some []
        ∧ BitmapAdv.padE .bottom (-(k : Int)) g = some [])
    ∧ (∀ (g : Grid) (w k : Nat), wellformed g w → w ≤ k →
        BitmapAdv.padE .left (-(k : Int)) g = some (g.map (fun _ => []))
        ∧ BitmapAdv.padE .right (-(k : Int)) g = some (g.map (fun _ => []))) := by
  refine ⟨?_, ?_, ?_⟩
  · intro t b l r g ht hb hl hr
    obtain ⟨g1, h1⟩ := BitmapAdv.padTop_nonpos ht g
    obtain ⟨g2, h2⟩ := BitmapAdv.padBottom_nonpos hb g1
    obtain ⟨g3, h3⟩ := BitmapAdv.padLeft_nonpos hl g2
    obtain ⟨g4, h4⟩ := BitmapAdv.padRight_nonpos hr g3
    refine ⟨g4, ?_⟩
    simp only [BitmapAdv.doPadding]
    rw [h1, Option.some_bind, h2, Option.some_bind, h3, Option.some_bind, h4]
  · intro g k hk
    rcases Nat.eq_zero_or_pos k with rfl | hpos
    · have hg : g = [] := by
        cases g with
        | nil => rfl
        | cons r t => simp at hk
      subst hg
      constructor
      · simp [BitmapAdv.padE_top, BitmapAdv.padTop]
      · simp [BitmapAdv.padE_bottom, BitmapAdv.padBottom]
    · constructor
      · rw [BitmapAdv.padE_top, BitmapAdv.padTop_neg hpos]
        congr 1
        exact List.drop_eq_nil_of_le hk
      · rw [BitmapAdv.padE_bottom, BitmapAdv.padBottom_neg hpos]
        congr 1
        have : g.length - k = 0 := by omega
        rw [this, List.take_zero]
  · intro g w k hw hk
    have hrows : ∀ r ∈ g, r.drop k = [] := by
      intro r hr
      apply List.drop_eq_nil_of_le
      rw [hw r hr]
      exact hk
    rcases Nat.eq_zero_or_pos k with rfl | hpos
    · have hmap : g.map (fun _ => ([] : List Bool)) = g := by
        refine (List.map_congr_left ?_).trans (List.map_id g)
        intro r hr
        have := hrows r hr
        simpa using this.symm
      constructor
      · rw [hmap]
        simp [BitmapAdv.padE_left, BitmapAdv.padLeft]
      · rw [hmap]
        simp [BitmapAdv.padE_right, BitmapAdv.padRight]
    · constructor
      · rw [BitmapAdv.padE_left, BitmapAdv.padLeft_neg hpos]
        congr 1
        exact List.map_congr_left hrows
      · rw [BitmapAdv.padE_right, BitmapAdv.padRight_neg hpos]
        congr 1
        apply List.map_congr_left
        intro r hr
        have : r.length - k = 0 := by
          have := hw r hr
          omega
        rw [this, List.take_zero]

/-- Witness for claim C10: an all-edge trim of a concrete grid succeeds, and
trimming three rows off a two-row grid bottoms out at the empty grid. -/
theorem claim_C10_witness :
    (∃ g', BitmapAdv.doPadding (-1) (-1) (-1) (-1) [[true, true], [false, false]]
        = some g')
    ∧ BitmapAdv.padE .top (-((3 : Nat) : Int)) [[true], [false]] = some [] :=
  ⟨claim_C10.1 (-1) (-1) (-1) (-1) [[true, true], [false, false]]
      (by decide) (by decide) (by decide) (by decide),
   (claim_C10.2.1 [[true], [false]] 3 (by decide)).1⟩

/-! Claim C4: the padding/trimming relation. -/

/-- Claim C4, counterexample to the original statement: padding the top of
an empty grid raises (`width()` on an empty `bindata`), so pad-then-trim is
not an identity there; and trimming two rows from a one-row grid then
padding two back also raises, so trim-then-pad does not restore the original
dimensions when the trim magnitude reaches the grid's extent. -/
theorem claim_C4_counterexample :
    (BitmapAdv.padE .top (1 : Int) ([] : Grid)).bind (BitmapAdv.padE .top (-1 : Int))
      = none
    ∧ (BitmapAdv.padE .top (-2 : Int) [[true]]).bind (BitmapAdv.padE .top (2 : Int))
      = none := by
  decide

/-- Claim C4 (amended): pad(+k) then trim(-k) on the same edge is a true
identity whenever the step is in range — always for the left/right edges,
and for the top/bottom edges whenever the grid is non-empty or k = 0
(padding top/bottom of an empty grid raises).  Trim(-k) then pad(+k)
restores the original dimensions and replaces the lost pixel data with
zeros, provided k is within the grid's extent on that axis (k < height, or
k = 0, for top/bottom; k ≤ width for left/right); it is not the identity in
general, as the final conjunct shows on a concrete grid. -/
theorem claim_C4 :
    (∀ (g : Grid) (k : Nat) (e : BitmapAdv.Edge),
        (g ≠ [] ∨ k = 0 ∨ e = .left ∨ e = .right) →
        (BitmapAdv.padE e (k : Int) g).bind (BitmapAdv.padE e (-(k : Int))) = some g)
    ∧ (∀ (g : Grid) (w k : Nat), wellformed g w → (k = 0 ∨ k < g.length) →
        (BitmapAdv.padE .top (-(k : Int)) g).bind (BitmapAdv.padE .top (k : Int))
          = some (List.replicate k (List.replicate w false) ++ g.drop k)
        ∧ (List.replicate k (List.replicate w false) ++ g.drop k).length = g.length
        ∧ wellformed (List.replicate k (List.replicate w false) ++ g.drop k) w)
    ∧ (∀ (g : Grid) (w k : Nat), wellformed g w → (k = 0 ∨ k < g.length) →
        (BitmapAdv.padE .bottom (-(k : Int)) g).bind (BitmapAdv.padE .bottom (k : Int))
          = some (g.take (g.length - k) ++ List.replicate k (List.replicate w false))
        ∧ (g.take (g.length - k) ++ List.replicate k (List.replicate w false)).length
            = g.length
        ∧ wellformed (g.take (g.length - k) ++ List.replicate k (List.replicate w false)) w)
    ∧ (∀ (g : Grid) (w k : Nat), wellformed g w → k ≤ w →
        (BitmapAdv.padE .left (-(k : Int)) g).bind (BitmapAdv.padE .left (k : Int))
          = some (g.map (fun row => List.replicate k false ++ row.drop k))
        ∧ (g.map (fun row => List.replicate k false ++ row.drop k)).length = g.length
        ∧ wellformed (g.map (fun row => List.replicate k false ++ row.drop k)) w)
    ∧ (∀ (g : Grid) (w k : Nat), wellformed g w → k ≤ w →
        (BitmapAdv.padE .right (-(k : Int)) g).bind (BitmapAdv.padE .right (k : Int))
          = some (g.map (fun row => row.take (row.length - k) ++ List.replicate k false))
        ∧ (g.map (fun row => row.take (row.length - k) ++ List.replicate k false)).length
            = g.length
        ∧ wellformed (g.map (fun row => row.take (row.length - k) ++ List.replicate k false)) w)
    ∧ (BitmapAdv.padE .top (-1 : Int) [[true], [false]]).bind
        (BitmapAdv.padE .top (1 : Int)) ≠ some [[true], [false]] := by
  refine ⟨?_, ?_, ?_, ?_, ?_, by decide⟩
  · intro g k e he
    cases e with
    | top =>
      apply BitmapAdv.pad_trim_top
      rcases he with h | h | h | h
      · exact Or.inl h
      · exact Or.inr h
      · exact absurd h (by decide)
      · exact absurd h (by decide)
    | bottom =>
      apply BitmapAdv.pad_trim_bottom
      rcases he with h | h | h | h
      · exact Or.inl h
      · exact Or.inr h
      · exact absurd h (by decide)
      · exact absurd h (by decide)
    | left => exact BitmapAdv.pad_trim_left g k
    | right => exact BitmapAdv.pad_trim_right g k
  · intro g w k hw h
    refine ⟨BitmapAdv.trim_pad_top g w k hw h, ?_, ?_⟩
    · simp only [List.length_append, List.length_replicate, List.length_drop]
      omega
    · intro r hr
      rcases List.mem_append.mp hr with h1 | h2
      · rw [List.eq_of_mem_replicate h1]
        simp
      · exact hw r (List.mem_of_mem_drop h2)
  · intro g w k hw h
    refine ⟨BitmapAdv.trim_pad_bottom g w k hw h, ?_, ?_⟩
    · simp only [List.length_append, List.length_replicate, List.length_take]
      omega
    · intro r hr
      rcases List.mem_append.mp hr with h1 | h2
      · exact hw r (List.mem_of_mem_take h1)
      · rw [List.eq_of_mem_replicate h2]
        simp
  · intro g w k hw hkw
    refine ⟨BitmapAdv.trim_pad_left g k, by simp, ?_⟩
    intro r hr
    simp only [List.mem_map] at hr
    obtain ⟨s, hs, rfl⟩ := hr
    have := hw s hs
    simp only [List.length_append, List.length_replicate, List.length_drop]
    omega
  · intro g w k hw hkw
    refine ⟨BitmapAdv.trim_pad_right g k, by simp, ?_⟩
    intro r hr
    simp only [List.mem_map] at hr
    obtain ⟨s, hs, rfl⟩ := hr
    have := hw s hs
    simp only [List.length_append, List.length_replicate, List.length_take]
    omega

/-- Witness for claim C4: pad-then-trim identity on a concrete one-row grid
at the top edge, and trim-then-pad on a concrete row at the left edge
yielding the zero-refilled row. -/
theorem claim_C4_witness :
    (BitmapAdv.padE .top ((2 : Nat) : Int) [[true]]).bind
        (BitmapAdv.padE .top (-((2 : Nat) : Int))) = some [[true]]
    ∧ (BitmapAdv.padE .left (-((1 : Nat) : Int)) [[true, true]]).bind
        (BitmapAdv.padE .left ((1 : Nat) : Int)) = some [[false, true]] :=
  ⟨claim_C4.1 [[true]] 2 .top (Or.inl (by decide)),
   by
    rw [(claim_C4.2.2.2.1 [[true, true]] 2 1 (by decide) (by decide)).1]
    decide⟩

/-! Claims C3 and C5: rotation closure and transpose involution. -/

/-- Claim C5, counterexample to the original statement: a zero-width grid
with two rows is collapsed to the empty grid by `zip`-based transposition,
so transposing twice does not restore it. -/
theorem claim_C5_counterexample :
    BitmapAdv.transpose (BitmapAdv.transpose [([] : List Bool), []])
      ≠ [([] : List Bool), []] := by decide

/-- Claim C5 (amended): for any grid whose rows all have equal length and
which is either empty or has positive width, applying transpose twice
restores the original grid exactly, both dimensions and every cell value; a
zero-width grid with rows is the one exception, collapsing to the empty
grid. -/
theorem claim_C5 (g : Grid) (w : Nat) (hw : wellformed g w)
    (hpos : g = [] ∨ 0 < w) :
    BitmapAdv.transpose (BitmapAdv.transpose g) = g :=
  pyzip_pyzip false hw hpos

/-- Witness for claim C5 at a concrete 2-by-2 grid. -/
theorem claim_C5_witness :
    BitmapAdv.transpose (BitmapAdv.transpose [[true, false], [false, true]])
      = [[true, false], [false, true]] :=
  claim_C5 [[true, false], [false, true]] 2 (by decide) (Or.inr (by decide))

/-- Claim C3, counterexample to the original statement: a zero-width grid
with two rows collapses to the empty grid under the first rotation, so four
clockwise rotations do not restore it. -/
theorem claim_C3_counterexample :
    BitmapAdv.rotateCW (BitmapAdv.rotateCW (BitmapAdv.rotateCW (BitmapAdv.rotateCW
      [([] : List Bool), []]))) ≠ [([] : List Bool), []] := by decide

/-- Claim C3 (amended): for any grid whose rows all have equal length and
which is either empty or has positive width, applying rotateCW (transpose
followed by flipHorizontal) four times yields a grid bit-identical to the
original: same width, same height, same value in every cell; a zero-width
grid with rows is the one exception, collapsing to the empty grid. -/
theorem claim_C3 (g : Grid) (w : Nat) (hw : wellformed g w)
    (hpos : g = [] ∨ 0 < w) :
    BitmapAdv.rotateCW (BitmapAdv.rotateCW (BitmapAdv.rotateCW
      (BitmapAdv.rotateCW g))) = g := by
  have h2 := BitmapAdv.rotateCW_rotateCW hw hpos
  have hw2 : wellformed (BitmapAdv.flipHorizontal (BitmapAdv.flipVertical g)) w :=
    BitmapAdv.wellformed_flipHorizontal (BitmapAdv.wellformed_flipVertical hw)
  have hpos2 : BitmapAdv.flipHorizontal (BitmapAdv.flipVertical g) = [] ∨ 0 < w := by
    rcases hpos with rfl | h
    · exact Or.inl rfl
    · exact Or.inr h
  rw [h2, BitmapAdv.rotateCW_rotateCW hw2 hpos2]
  simp [BitmapAdv.flipHorizontal, BitmapAdv.flipVertical, List.map_reverse,
    List.reverse_reverse, List.map_map]

/-- Witness for claim C3 at a concrete 3-by-2 grid. -/
theorem claim_C3_witness :
    BitmapAdv.rotateCW (BitmapAdv.rotateCW (BitmapAdv.rotateCW (BitmapAdv.rotateCW
      [[true, false], [false, false], [true, true]])))
      = [[true, false], [false, false], [true, true]] :=
  claim_C3 [[true, false], [false, false], [true, true]] 2 (by decide)
    (Or.inr (by decide))


/-! Claim C2: shape of the packed elements. -/

/-- Claim C2, counterexample to the original statement: a 1-wide, 4-tall
all-ones grid packs to the single element `f` — one hex digit, not two,
because the rotated row's hex string has odd length and the last slice of
the splitting loop is a single digit. -/
theorem claim_C2_counterexample :
    BitmapAdv.getCArr true [[true], [true], [true], [true]] = some [['f']]
    ∧ (['f'] : List Char).length ≠ 2 := by
  decide

/-- Claim C2 (amended): every element of the sequence returned by `getCArr`
is a non-empty string of at most two lowercase hex digits (one digit occurs
when the per-row hex string has odd length), and therefore represents a
value in 0–255; grid dimensions need not be multiples of 8, the zero-padding
to whole hex digits being implicit in `todata(4)`. -/
theorem claim_C2 (o : Bool) (g : Grid) (l : List (List Char))
    (hl : BitmapAdv.getCArr o g = some l) :
    ∀ e ∈ l, (e.length = 1 ∨ e.length = 2)
      ∧ (∀ c ∈ e, c ∈ hexChars) ∧ hexVal e ≤ 255 := by
  rw [BitmapAdv.getCArr] at hl
  obtain ⟨B, hB, rfl⟩ : ∃ B, BitmapAdv.mkByteArr g = some B
      ∧ l = (if o then pyzip [] B else B).flatten := by
    cases hmk : BitmapAdv.mkByteArr g with
    | none => rw [hmk] at hl; exact absurd hl (by simp)
    | some B =>
      rw [hmk] at hl
      simp only [Option.map_some', Option.some_inj] at hl
      exact ⟨B, rfl, hl.symm⟩
  have hBprop : ∀ r ∈ B, ∀ e ∈ r,
      (e.length = 1 ∨ e.length = 2) ∧ ∀ c ∈ e, c ∈ hexChars := by
    rw [BitmapAdv.mkByteArr] at hB
    obtain ⟨data, hdata, rfl⟩ : ∃ data,
        BitmapAdv.mapOption BitmapAdv.todata4Row (BitmapAdv.rotateCW g) = some data
        ∧ B = data.map (fun row => (BitmapAdv.chunk2 row).reverse) := by
      cases hm : BitmapAdv.mapOption BitmapAdv.todata4Row (BitmapAdv.rotateCW g) with
      | none => rw [hm] at hB; exact absurd hB (by simp)
      | some data =>
        rw [hm] at hB
        simp only [Option.map_some', Option.some_inj] at hB
        exact ⟨data, rfl, hB.symm⟩
    intro r hr e he
    simp only [List.mem_map] at hr
    obtain ⟨str, hstr, rfl⟩ := hr
    rw [List.mem_reverse] at he
    have hchunk := chunk2_mem str e he
    obtain ⟨row0, _, hrow0eq⟩ := mem_of_mapOption hdata str hstr
    have hhex := todata4Row_hex hrow0eq
    exact ⟨hchunk.1, fun c hc => hhex c (hchunk.2 c hc)⟩
  intro e he
  have hmem : ∃ r ∈ B, e ∈ r := by
    cases o with
    | false =>
      rw [if_neg (by simp)] at he
      exact List.mem_flatten.mp he
    | true =>
      rw [if_pos rfl] at he
      obtain ⟨c, hc, hec⟩ := List.mem_flatten.mp he
      exact mem_mem_pyzip hc hec
  obtain ⟨r, hr, her⟩ := hmem
  have hp := hBprop r hr e her
  exact ⟨hp.1, hp.2, hexVal_le hp.1 hp.2⟩

/-- Witness for claim C2 on the 1-by-1 grid, whose packed sequence is the
single one-digit element `1`. -/
theorem claim_C2_witness :
    ((['1'] : List Char).length = 1 ∨ (['1'] : List Char).length = 2)
      ∧ (∀ c ∈ (['1'] : List Char), c ∈ hexChars) ∧ hexVal ['1'] ≤ 255 :=
  claim_C2 true [[true]] [['1']] (by decide) ['1'] (by decide)

/-! Claim C1: which byte order transposes the byte-group array. -/

/-- Claim C1, counterexample to the original statement: on a 2-wide, 9-tall
grid, `getCArr` with `orderIsRowMajor = false` does NOT flatten the
transposed byte-group array — the transposition happens in the `true`
branch, not the `false` one as the spec asserts. -/
theorem claim_C1_counterexample :
    BitmapAdv.getCArr false (List.replicate 9 [true, false])
      ≠ (BitmapAdv.mkByteArr (List.replicate 9 [true, false])).map
          (fun b => (pyzip [] b).flatten) := by
  decide

/-- Claim C1 (amended): the 2-D array of byte-group strings is transposed
(rows become columns, via `zip(*byteArr)`) before flattening if and only if
`orderIsRowMajor` is TRUE — the rotated byte array is naturally
column-major, and the transpose converts it to row-major; when the argument
is false the array is flattened without transposition. -/
theorem claim_C1 (g : Grid) :
    BitmapAdv.getCArr true g
        = (BitmapAdv.mkByteArr g).map (fun b => (pyzip [] b).flatten)
    ∧ BitmapAdv.getCArr false g = (BitmapAdv.mkByteArr g).map List.flatten := by
  constructor
  · rfl
  · rw [BitmapAdv.getCArr]
    cases BitmapAdv.mkByteArr g with
    | none => rfl
    | some B => rw [Option.map_some', Option.map_some', if_neg (by simp)]

/-! Claim C7: fixed transform order and mutator-order independence. -/

theorem rotLoop_eq_iterate : ∀ (n : Nat) (g : Grid),
    GlyphProcessor.rotLoop n g = BitmapAdv.rotateCW^[n] g
  | 0, _ => rfl
  | n + 1, g => by
    rw [GlyphProcessor.rotLoop, rotLoop_eq_iterate n, Function.iterate_succ_apply]

/-- Claim C7 (confirmed): `glyphToBitmap` applies, on a private clone,
padding first, then the horizontal mirror if set, then the vertical mirror
if set, then `rotationCount mod 4` clockwise rotations (the spec-worded
pipeline `transformSpec`); and its result depends only on the final
configuration values, so any two mutator call sequences that produce the
same configuration produce the same bitmap. -/
theorem claim_C7 :
    (∀ (c : GlyphProcessor.Config) (g : Grid),
        GlyphProcessor.glyphToBitmap c g = GlyphProcessor.transformSpec c g)
    ∧ (∀ (ms1 ms2 : List GlyphProcessor.Mutator) (g : Grid),
        GlyphProcessor.applyMutators ms1 GlyphProcessor.initConfig
            = GlyphProcessor.applyMutators ms2 GlyphProcessor.initConfig →
        GlyphProcessor.glyphToBitmap
            (GlyphProcessor.applyMutators ms1 GlyphProcessor.initConfig) g
          = GlyphProcessor.glyphToBitmap
            (GlyphProcessor.applyMutators ms2 GlyphProcessor.initConfig) g) := by
  constructor
  · intro c g
    simp only [GlyphProcessor.glyphToBitmap, GlyphProcessor.transformSpec,
      rotLoop_eq_iterate]
    cases hh : c.mirrorHoriz <;> cases hv : c.mirrorVert <;> simp [hh, hv]
  · intro ms1 ms2 g h
    rw [h]

/-- Witness for claim C7: two different mutator orders (vertical mirror
then rotate, rotate then vertical mirror) reach the same configuration and
the same output bitmap. -/
theorem claim_C7_witness :
    GlyphProcessor.glyphToBitmap
        (GlyphProcessor.applyMutators
          [.doVerticalMirror, .rotateCW] GlyphProcessor.initConfig)
        [[true, false], [false, false]]
      = GlyphProcessor.glyphToBitmap
        (GlyphProcessor.applyMutators
          [.rotateCW, .doVerticalMirror] GlyphProcessor.initConfig)
        [[true, false], [false, false]] :=
  claim_C7.2 [.doVerticalMirror, .rotateCW] [.rotateCW, .doVerticalMirror]
    [[true, false], [false, false]] (by decide)

/-! Claim C8: comment formatting. -/

/-- Claim C8 (confirmed): `getEntryComment` (strings modelled as their
character sequences) returns exactly `' a ' (0x0061)` for code point 0x61
and `'   ' (0x0009)` for 0x09; in general every code point below the
printable-space threshold 0x20 gets a literal space in the character slot
and its code point rendered as four-digit uppercase hexadecimal. -/
theorem claim_C8 :
    GlyphProcessor.getEntryComment 0x61
        = ['\'', ' ', 'a', ' ', '\'', ' ', '(', '0', 'x', '0', '0', '6', '1', ')']
    ∧ GlyphProcessor.getEntryComment 0x09
        = ['\'', ' ', ' ', ' ', '\'', ' ', '(', '0', 'x', '0', '0', '0', '9', ')']
    ∧ ∀ c : Nat, c < 32 →
        GlyphProcessor.getEntryComment c
          = ['\'', ' ', ' ', ' ', '\'', ' ', '(', '0', 'x'] ++ specHex4 c ++ [')'] := by
  refine ⟨by decide, by decide, ?_⟩
  intro c hc
  interval_cases c <;> decide

/-- Witness for claim C8 at the tab code point. -/
theorem claim_C8_witness :
    GlyphProcessor.getEntryComment 9
      = ['\'', ' ', ' ', ' ', '\'', ' ', '(', '0', 'x'] ++ specHex4 9 ++ [')'] :=
  claim_C8.2.2 9 (by decide)

end BdfToC
